import Mathlib

/-!
Verification of the proof-of-work target check and difficulty retargeting
algorithms of a cryptonote-style blockchain (difficulty.cpp), against its
natural-language specification.

All machine integers are modelled as `Nat` with explicit reduction
`% 2^64` (or `% 2^32`) exactly where the C++ `uint64_t` arithmetic can
wrap.  Fixed configuration constants (`DIFFICULTY_WINDOW`, `DIFFICULTY_CUT`,
`DIFFICULTY_ADJUST_HEIGHT`, ...) live in a header that is not part of the
sources, so they are carried as an explicit parameter record `Params`,
constrained only by the static assertions the code itself states.
-/

namespace Difficulty

/-- Portable 64×64→128 multiply (the `#else` branch of `mul` in
difficulty.cpp): four-limb schoolbook decomposition into 32-bit halves,
returning `(low, high)`.  Every intermediate is a C++ `uint64_t`, hence
the `% 2^64` reductions; shifts `>> 32` are `/ 2^32`, masks `& 0xFFFFFFFF`
are `% 2^32`, and `(x << 32) | y` for `y < 2^32` is `x % 2^32 * 2^32 + y`. -/
def mul (a b : Nat) : Nat × Nat :=
  let aLow := a % 2^32
  let aHigh := a / 2^32
  let bLow := b % 2^32
  let bHigh := b / 2^32
  let res := aLow * bLow % 2^64
  let lowRes1 := res % 2^32
  let carry := res / 2^32
  let res2 := (aHigh * bLow + carry) % 2^64
  let highResHigh1 := res2 / 2^32
  let highResLow1 := res2 % 2^32
  let res3 := aLow * bHigh % 2^64
  let lowRes2 := res3 % 2^32
  let carry2 := res3 / 2^32
  let res4 := (aHigh * bHigh + carry2) % 2^64
  let highResHigh2 := res4 / 2^32
  let highResLow2 := res4 % 2^32
  let r := (highResLow1 + lowRes2) % 2^64
  let carry3 := r / 2^32
  let low := r % 2^32 * 2^32 + lowRes1
  let r2 := (highResHigh1 + highResLow2 + carry3) % 2^64
  let d3 := r2 % 2^32
  let carry4 := r2 / 2^32
  let r3 := (highResHigh2 + carry4) % 2^64
  let high := d3 + r3 % 2^32 * 2^32
  (low, high)

/-- C2: the portable four-limb schoolbook multiply is exact: for 64-bit
inputs, `high * 2^64 + low = a * b` with no truncation. -/
theorem mul_exact (a b : Nat) (ha : a < 2^64) (hb : b < 2^64) :
    (mul a b).2 * 2^64 + (mul a b).1 = a * b := by
  unfold mul
  simp only
  have haH : a / 2^32 < 2^32 := by omega
  have hbH : b / 2^32 < 2^32 := by omega
  have haL : a % 2^32 < 2^32 := Nat.mod_lt _ (by norm_num)
  have hbL : b % 2^32 < 2^32 := Nat.mod_lt _ (by norm_num)
  have key : a * b =
      a / 2^32 * (b / 2^32) * 2^64 + a / 2^32 * (b % 2^32) * 2^32 +
        a % 2^32 * (b / 2^32) * 2^32 + a % 2^32 * (b % 2^32) := by
    conv_lhs => rw [← Nat.div_add_mod a (2^32), ← Nat.div_add_mod b (2^32)]
    ring
  have hp11 : a / 2^32 * (b / 2^32) ≤ (2^32 - 1) * (2^32 - 1) :=
    Nat.mul_le_mul (by omega) (by omega)
  have hp10 : a / 2^32 * (b % 2^32) ≤ (2^32 - 1) * (2^32 - 1) :=
    Nat.mul_le_mul (by omega) (by omega)
  have hp01 : a % 2^32 * (b / 2^32) ≤ (2^32 - 1) * (2^32 - 1) :=
    Nat.mul_le_mul (by omega) (by omega)
  have hp00 : a % 2^32 * (b % 2^32) ≤ (2^32 - 1) * (2^32 - 1) :=
    Nat.mul_le_mul (by omega) (by omega)
  generalize a / 2^32 * (b / 2^32) = p11 at key hp11 ⊢
  generalize a / 2^32 * (b % 2^32) = p10 at key hp10 ⊢
  generalize a % 2^32 * (b / 2^32) = p01 at key hp01 ⊢
  generalize a % 2^32 * (b % 2^32) = p00 at key hp00 ⊢
  omega

/-- Both components of `mul` are genuine 64-bit words (the low word is
built as `r % 2^32 * 2^32 + lowRes1`, the high word as
`d3 + r3 % 2^32 * 2^32`). -/
theorem mul_lt (a b : Nat) : (mul a b).1 < 2^64 ∧ (mul a b).2 < 2^64 := by
  unfold mul
  simp only
  constructor <;> omega

/-- `mul` computes exactly the split of the product into low and high
64-bit words. -/
theorem mul_eq (a b : Nat) (ha : a < 2^64) (hb : b < 2^64) :
    mul a b = (a * b % 2^64, a * b / 2^64) := by
  have h := mul_exact a b ha hb
  have hlt := mul_lt a b
  have h1 : (mul a b).1 = a * b % 2^64 := by
    generalize a * b = p at h ⊢; omega
  have h2 : (mul a b).2 = a * b / 2^64 := by
    generalize a * b = p at h ⊢; omega
  exact Prod.ext h1 h2

/-- `cadd` from difficulty.cpp: true iff the 64-bit addition `a + b`
wraps (carry out). -/
def cadd (a b : Nat) : Bool := decide ((a + b) % 2^64 < a)

/-- `cadc` from difficulty.cpp: carry out of the three-operand addition
`a + b + c`; `(uint64_t) -1` is `2^64 - 1`. -/
def cadc (a b : Nat) (c : Bool) : Bool :=
  decide ((a + b) % 2^64 < a) || (c && decide ((a + b) % 2^64 = 2^64 - 1))

/-- Byte `j` of a hash supplied as a list of bytes (out-of-range reads
as 0; inputs of interest have length 32). -/
def byte (hash : List Nat) (j : Nat) : Nat := hash.getD j 0

/-- The 64-bit limb `swap64le(((const uint64_t *) &hash)[k])`: eight
consecutive bytes of the hash combined little-endian. -/
def hashLimb (hash : List Nat) (k : Nat) : Nat :=
  byte hash (8*k) + byte hash (8*k+1) * 2^8 + byte hash (8*k+2) * 2^16 +
    byte hash (8*k+3) * 2^24 + byte hash (8*k+4) * 2^32 + byte hash (8*k+5) * 2^40 +
    byte hash (8*k+6) * 2^48 + byte hash (8*k+7) * 2^56

/-- The 256-bit little-endian unsigned integer value of a 32-byte hash. -/
def hashValue (hash : List Nat) : Nat :=
  byte hash 0 + byte hash 1 * 2^8 + byte hash 2 * 2^16 + byte hash 3 * 2^24 +
  byte hash 4 * 2^32 + byte hash 5 * 2^40 + byte hash 6 * 2^48 + byte hash 7 * 2^56 +
  byte hash 8 * 2^64 + byte hash 9 * 2^72 + byte hash 10 * 2^80 + byte hash 11 * 2^88 +
  byte hash 12 * 2^96 + byte hash 13 * 2^104 + byte hash 14 * 2^112 + byte hash 15 * 2^120 +
  byte hash 16 * 2^128 + byte hash 17 * 2^136 + byte hash 18 * 2^144 + byte hash 19 * 2^152 +
  byte hash 20 * 2^160 + byte hash 21 * 2^168 + byte hash 22 * 2^176 + byte hash 23 * 2^184 +
  byte hash 24 * 2^192 + byte hash 25 * 2^200 + byte hash 26 * 2^208 + byte hash 27 * 2^216 +
  byte hash 28 * 2^224 + byte hash 29 * 2^232 + byte hash 30 * 2^240 + byte hash 31 * 2^248

/-- The value of the hash is the little-endian composition of its four
64-bit limbs. -/
theorem hashValue_limbs (hash : List Nat) :
    hashValue hash = hashLimb hash 0 + hashLimb hash 1 * 2^64 +
      hashLimb hash 2 * 2^128 + hashLimb hash 3 * 2^192 := by
  simp only [hashValue, hashLimb]
  norm_num
  ring

/-- `check_hash` from difficulty.cpp: decide whether `hash` satisfies
`difficulty`, by multiplying each limb by the difficulty with `mul` and
propagating carries; the result is accepted iff no carry leaves bit 255. -/
def check_hash (hash : List Nat) (difficulty : Nat) : Bool :=
  let p3 := mul (hashLimb hash 3) difficulty
  let top := p3.1
  if p3.2 ≠ 0 then false
  else
    let p0 := mul (hashLimb hash 0) difficulty
    let cur := p0.2
    let p1 := mul (hashLimb hash 1) difficulty
    let carry := cadd cur p1.1
    let cur2 := p1.2
    let p2 := mul (hashLimb hash 2) difficulty
    let carry2 := cadc cur2 p2.1 carry
    let carry3 := cadc p2.2 top carry2
    !carry3

/-- Each byte read out of a byte list is below 2^8. -/
theorem byte_lt (hash : List Nat) (hb : ∀ x ∈ hash, x < 2^8) (j : Nat) :
    byte hash j < 2^8 := by
  unfold byte
  rw [List.getD_eq_getElem?_getD]
  rcases lt_or_le j hash.length with h | h
  · rw [List.getElem?_eq_getElem h, Option.getD_some]
    exact hb _ (List.getElem_mem h)
  · rw [List.getElem?_eq_none h, Option.getD_none]
    norm_num

/-- Each 64-bit limb of a byte list with bytes below 2^8 is below 2^64. -/
theorem hashLimb_lt (hash : List Nat) (hb : ∀ x ∈ hash, x < 2^8) (k : Nat) :
    hashLimb hash k < 2^64 := by
  unfold hashLimb
  have h0 := byte_lt hash hb (8*k)
  have h1 := byte_lt hash hb (8*k+1)
  have h2 := byte_lt hash hb (8*k+2)
  have h3 := byte_lt hash hb (8*k+3)
  have h4 := byte_lt hash hb (8*k+4)
  have h5 := byte_lt hash hb (8*k+5)
  have h6 := byte_lt hash hb (8*k+6)
  have h7 := byte_lt hash hb (8*k+7)
  omega

/-- C1: `check_hash hash difficulty` is true iff the 256-bit
little-endian integer value of the hash, multiplied by the difficulty,
is strictly below 2^256 (exact arbitrary-precision comparison). -/
theorem check_hash_iff (hash : List Nat) (difficulty : Nat)
    (hb : ∀ x ∈ hash, x < 2^8) (hd : difficulty < 2^64) :
    check_hash hash difficulty = true ↔ hashValue hash * difficulty < 2^256 := by
  have hl0 := hashLimb_lt hash hb 0
  have hl1 := hashLimb_lt hash hb 1
  have hl2 := hashLimb_lt hash hb 2
  have hl3 := hashLimb_lt hash hb 3
  have hv : hashValue hash * difficulty =
      hashLimb hash 0 * difficulty + hashLimb hash 1 * difficulty * 2^64 +
        hashLimb hash 2 * difficulty * 2^128 + hashLimb hash 3 * difficulty * 2^192 := by
    rw [hashValue_limbs]; ring
  unfold check_hash
  rw [mul_eq _ _ hl0 hd, mul_eq _ _ hl1 hd, mul_eq _ _ hl2 hd, mul_eq _ _ hl3 hd]
  simp only [cadd, cadc, ne_eq]
  rw [hv]
  have hp0 : hashLimb hash 0 * difficulty ≤ (2^64 - 1) * (2^64 - 1) :=
    Nat.mul_le_mul (by omega) (by omega)
  have hp1 : hashLimb hash 1 * difficulty ≤ (2^64 - 1) * (2^64 - 1) :=
    Nat.mul_le_mul (by omega) (by omega)
  have hp2 : hashLimb hash 2 * difficulty ≤ (2^64 - 1) * (2^64 - 1) :=
    Nat.mul_le_mul (by omega) (by omega)
  have hp3 : hashLimb hash 3 * difficulty ≤ (2^64 - 1) * (2^64 - 1) :=
    Nat.mul_le_mul (by omega) (by omega)
  generalize hashLimb hash 0 * difficulty = p0 at hp0 ⊢
  generalize hashLimb hash 1 * difficulty = p1 at hp1 ⊢
  generalize hashLimb hash 2 * difficulty = p2 at hp2 ⊢
  generalize hashLimb hash 3 * difficulty = p3 at hp3 ⊢
  split_ifs with h3
  · rw [Bool.not_eq_true']
    simp only [Bool.or_eq_false_iff, Bool.and_eq_false_iff,
      decide_eq_false_iff_not, not_lt]
    omega
  · exact iff_of_false (by simp) (by omega)

/-- Witness for C1: the all-zero hash at difficulty 5. -/
theorem check_hash_iff_witness :
    check_hash (List.replicate 32 0) 5 = true ↔
      hashValue (List.replicate 32 0) * 5 < 2^256 :=
  check_hash_iff (List.replicate 32 0) 5 (by decide) (by norm_num)

/-- The window/cut configuration constants of cryptonote_config.h (the
header is not part of the sources): `DIFFICULTY_ADJUST_HEIGHT`,
`DIFFICULTY_WINDOW`, `DIFFICULTY_CUT`, `DIFFICULTY_WINDOW_ADJUST`,
`DIFFICULTY_CUT_ADJUST`, carried as an explicit parameter record. -/
structure Params where
  adjustHeight : Nat
  window : Nat
  cut : Nat
  windowAdjust : Nat
  cutAdjust : Nat

/-- 64-bit unsigned subtraction `a - b` with two's-complement wraparound,
for `a, b < 2^64`. -/
def sub64 (a b : Nat) : Nat := (a + 2^64 - b) % 2^64

/-- `std::vector::resize n` on a vector of unsigned integers: truncate to
`n` elements, or pad with value-initialized (zero) elements. -/
def resize (n : Nat) (xs : List Nat) : List Nat :=
  xs.take n ++ List.replicate (n - xs.length) 0

/-- `difficulty_window` selected by height (difficulty.cpp lines 125-134). -/
def windowOf (p : Params) (height : Nat) : Nat :=
  if height ≥ p.adjustHeight then p.windowAdjust else p.window

/-- `difficulty_cut` selected by height (difficulty.cpp lines 125-134). -/
def cutOf (p : Params) (height : Nat) : Nat :=
  if height ≥ p.adjustHeight then p.cutAdjust else p.cut

/-- The trim window `(cut_begin, cut_end)` of `next_difficulty`
(difficulty.cpp lines 150-159).  The `size_t` subtractions appear as
truncated `Nat` subtraction; under the asserted configuration invariants
(`window ≥ 2`, `2*cut ≤ window - 2`) they never underflow, so this agrees
with the `size_t` arithmetic on every input the claims range over. -/
def cutRange (window cut length : Nat) : Nat × Nat :=
  if length ≤ window - 2 * cut then (0, length)
  else ((length - (window - 2 * cut) + 1) / 2,
        (length - (window - 2 * cut) + 1) / 2 + (window - 2 * cut))

/-- The timestamp series after the conditional truncation to the window
(difficulty.cpp lines 135-139). -/
def trimmedTs (p : Params) (timestamps : List Nat) (height : Nat) : List Nat :=
  if timestamps.length > windowOf p height then resize (windowOf p height) timestamps
  else timestamps

/-- The cumulative-difficulty series after the conditional truncation;
note the condition tests the *timestamps* length, as in the source. -/
def trimmedCd (p : Params) (timestamps cumulative_difficulties : List Nat)
    (height : Nat) : List Nat :=
  if timestamps.length > windowOf p height then
    resize (windowOf p height) cumulative_difficulties
  else cumulative_difficulties

/-- The cut window computed by `next_difficulty` on the truncated series. -/
def ndCuts (p : Params) (timestamps : List Nat) (height : Nat) : Nat × Nat :=
  cutRange (windowOf p height) (cutOf p height) (trimmedTs p timestamps height).length

/-- `time_span` of `next_difficulty` (lines 149, 161-164): sort the
truncated timestamps ascending (`std::sort`; on naturals every comparison
sort returns the same list, here insertion sort), take the difference of
the cut-window endpoints (64-bit subtraction), and clamp zero to one. -/
def ndTimeSpan (p : Params) (timestamps : List Nat) (height : Nat) : Nat :=
  let sorted := List.insertionSort (fun a b => a ≤ b) (trimmedTs p timestamps height)
  let cuts := ndCuts p timestamps height
  let t0 := sub64 (sorted.getD (cuts.2 - 1) 0) (sorted.getD cuts.1 0)
  if t0 = 0 then 1 else t0

/-- `total_work` of `next_difficulty` (line 165): difference of the
cut-window endpoints of the (unsorted) cumulative difficulties. -/
def ndTotalWork (p : Params) (timestamps cumulative_difficulties : List Nat)
    (height : Nat) : Nat :=
  let cuts := ndCuts p timestamps height
  let cd := trimmedCd p timestamps cumulative_difficulties height
  sub64 (cd.getD (cuts.2 - 1) 0) (cd.getD cuts.1 0)

/-- The final scaled ceiling division of `next_difficulty` (lines
167-174): 128-bit product via `mul`, overflow signalled by returning 0,
otherwise the 64-bit ceiling division by `time_span`. -/
def nd_finish (total_work target_seconds time_span : Nat) : Nat :=
  let pr := mul total_work target_seconds
  if pr.2 ≠ 0 ∨ (pr.1 + time_span - 1) % 2^64 < pr.1 then 0
  else (pr.1 + time_span - 1) % 2^64 / time_span

/-- `next_difficulty` from difficulty.cpp (lines 123-175), assembled from
the step functions above. -/
def next_difficulty (p : Params) (timestamps cumulative_difficulties : List Nat)
    (target_seconds height : Nat) : Nat :=
  if (trimmedTs p timestamps height).length ≤ 1 then 1
  else
    nd_finish (ndTotalWork p timestamps cumulative_difficulties height)
      target_seconds (ndTimeSpan p timestamps height)

/-- The computed time span is clamped to at least 1. -/
theorem ndTimeSpan_pos (p : Params) (timestamps : List Nat) (height : Nat) :
    1 ≤ ndTimeSpan p timestamps height := by
  unfold ndTimeSpan
  dsimp only
  split_ifs with h
  · exact le_refl 1
  · omega

/-- The computed time span is a 64-bit value. -/
theorem ndTimeSpan_lt (p : Params) (timestamps : List Nat) (height : Nat) :
    ndTimeSpan p timestamps height < 2^64 := by
  unfold ndTimeSpan sub64
  dsimp only
  split_ifs with h
  · norm_num
  · exact Nat.mod_lt _ (by norm_num)

/-- The computed total work is a 64-bit value. -/
theorem ndTotalWork_lt (p : Params) (timestamps cumulative_difficulties : List Nat)
    (height : Nat) :
    ndTotalWork p timestamps cumulative_difficulties height < 2^64 := by
  unfold ndTotalWork sub64
  dsimp only
  exact Nat.mod_lt _ (by norm_num)

/-- C3: under the preconditions (equal series lengths, more than one
sample after truncation, positive target, positive total work over the
cut window), `next_difficulty` returns 0 exactly when the 128-bit product
`total_work * target_seconds` has a nonzero high word or the ceiling
addition `low + time_span - 1` wraps past 2^64; otherwise it returns
`ceil(total_work * target_seconds / time_span) ≥ 1`. -/
theorem next_difficulty_spec (p : Params) (ts cd : List Nat) (target height : Nat)
    (hlen : ts.length = cd.length)
    (htarget1 : 1 ≤ target) (htarget : target < 2^64)
    (hlen2 : 1 < (trimmedTs p ts height).length)
    (hwork : 0 < ndTotalWork p ts cd height) :
    (next_difficulty p ts cd target height = 0 ↔
        ndTotalWork p ts cd height * target / 2^64 ≠ 0 ∨
          2^64 ≤ ndTotalWork p ts cd height * target % 2^64 +
            ndTimeSpan p ts height - 1) ∧
      (ndTotalWork p ts cd height * target / 2^64 = 0 ∧
          ndTotalWork p ts cd height * target % 2^64 +
            ndTimeSpan p ts height - 1 < 2^64 →
        next_difficulty p ts cd target height =
            (ndTotalWork p ts cd height * target + ndTimeSpan p ts height - 1) /
              ndTimeSpan p ts height ∧
          1 ≤ next_difficulty p ts cd target height) := by
  have hsp1 : 1 ≤ ndTimeSpan p ts height := ndTimeSpan_pos p ts height
  have hsp2 : ndTimeSpan p ts height < 2^64 := ndTimeSpan_lt p ts height
  have htw : ndTotalWork p ts cd height < 2^64 := ndTotalWork_lt p ts cd height
  set sp := ndTimeSpan p ts height with hsp
  set tw := ndTotalWork p ts cd height with htwd
  have hD : next_difficulty p ts cd target height = nd_finish tw target sp := by
    unfold next_difficulty
    rw [if_neg (by omega)]
  rw [hD]
  unfold nd_finish
  rw [mul_eq _ _ htw htarget]
  simp only [ne_eq]
  set P := tw * target with hP
  have hP1 : 1 ≤ P := by
    rw [hP]
    exact Nat.one_le_iff_ne_zero.mpr (Nat.mul_ne_zero (by omega) (by omega))
  by_cases hov : ¬ P / 2^64 = 0 ∨ 2^64 ≤ P % 2^64 + sp - 1
  · rw [if_pos (by omega : ¬ P / 2^64 = 0 ∨ (P % 2^64 + sp - 1) % 2^64 < P % 2^64)]
    refine ⟨iff_of_true rfl hov, fun hno => absurd hov (by omega)⟩
  · rw [if_neg (by omega : ¬ (¬ P / 2^64 = 0 ∨ (P % 2^64 + sp - 1) % 2^64 < P % 2^64))]
    have hmod : P % 2^64 = P := Nat.mod_eq_of_lt (by omega)
    have hlt : P + sp - 1 < 2^64 := by omega
    have hq : 1 ≤ (P + sp - 1) / sp := by
      rw [Nat.le_div_iff_mul_le (by omega : 0 < sp), one_mul]
      omega
    rw [hmod, Nat.mod_eq_of_lt hlt]
    exact ⟨iff_of_false (by omega) (by omega), fun _ => ⟨rfl, hq⟩⟩

/-- Concrete window parameters used for witnesses and counterexamples:
classic profile `(window, cut) = (10, 0)`, adjustment fork at height 1000
with profile `(12, 1)`. -/
def testParams : Params :=
  { adjustHeight := 1000, window := 10, cut := 0, windowAdjust := 12, cutAdjust := 1 }

/-- Witness for C3: the spec's own example — timestamps `[100,110,130]`,
cumulative work `[0,10,30]`, target 10 — no overflow, result
`ceil(30*10/30) = 10`. -/
theorem next_difficulty_spec_witness :
    (next_difficulty testParams [100, 110, 130] [0, 10, 30] 10 0 = 0 ↔
        ndTotalWork testParams [100, 110, 130] [0, 10, 30] 0 * 10 / 2^64 ≠ 0 ∨
          2^64 ≤ ndTotalWork testParams [100, 110, 130] [0, 10, 30] 0 * 10 % 2^64 +
            ndTimeSpan testParams [100, 110, 130] 0 - 1) ∧
      (ndTotalWork testParams [100, 110, 130] [0, 10, 30] 0 * 10 / 2^64 = 0 ∧
          ndTotalWork testParams [100, 110, 130] [0, 10, 30] 0 * 10 % 2^64 +
            ndTimeSpan testParams [100, 110, 130] 0 - 1 < 2^64 →
        next_difficulty testParams [100, 110, 130] [0, 10, 30] 10 0 =
            (ndTotalWork testParams [100, 110, 130] [0, 10, 30] 0 * 10 +
              ndTimeSpan testParams [100, 110, 130] 0 - 1) /
              ndTimeSpan testParams [100, 110, 130] 0 ∧
          1 ≤ next_difficulty testParams [100, 110, 130] [0, 10, 30] 10 0) :=
  next_difficulty_spec testParams [100, 110, 130] [0, 10, 30] 10 0 (by decide)
    (by norm_num) (by norm_num) (by decide) (by decide)

/-- `next_difficulty_with_statistics` from difficulty.cpp (lines 177-222):
the same computation as `next_difficulty`, hard-wired to the pre-fork
profile `(DIFFICULTY_WINDOW, DIFFICULTY_CUT)`, which afterwards forwards
`(blockheight, time_span, total_work, final_difficulty)` to the external
statistics recorder (`BlockchainSQLITEDB::insert_next_difficulty` via
`statistics_tools`).  The recorder is an arbitrary function argument
returning a status code (`-1` when statistics are closed, `SQLITE_OK` or
`SQLITE_ERROR` otherwise); as in the source, its return value is ignored. -/
def next_difficulty_with_statistics (recorder : Nat → Nat → Nat → Nat → Int)
    (p : Params) (blockheight : Nat) (timestamps cumulative_difficulties : List Nat)
    (target_seconds : Nat) : Nat :=
  let ts := if timestamps.length > p.window then resize p.window timestamps
            else timestamps
  let cd := if timestamps.length > p.window then resize p.window cumulative_difficulties
            else cumulative_difficulties
  if ts.length ≤ 1 then 1
  else
    let sorted := List.insertionSort (fun a b => a ≤ b) ts
    let cuts := cutRange p.window p.cut ts.length
    let t0 := sub64 (sorted.getD (cuts.2 - 1) 0) (sorted.getD cuts.1 0)
    let time_span := if t0 = 0 then 1 else t0
    let total_work := sub64 (cd.getD (cuts.2 - 1) 0) (cd.getD cuts.1 0)
    let pr := mul total_work target_seconds
    if pr.2 ≠ 0 ∨ (pr.1 + time_span - 1) % 2^64 < pr.1 then 0
    else
      let final_difficulty := (pr.1 + time_span - 1) % 2^64 / time_span
      let _ := recorder blockheight time_span total_work final_difficulty
      final_difficulty

/-- C4: for any recorder whatsoever (enabled, disabled, or failing — the
recorder appears as an arbitrary function and its status is discarded),
`next_difficulty_with_statistics` returns exactly `next_difficulty`
evaluated at any height below the adjustment fork height. -/
theorem next_difficulty_with_statistics_eq (recorder : Nat → Nat → Nat → Nat → Int)
    (p : Params) (blockheight : Nat) (ts cd : List Nat) (target h0 : Nat)
    (hpre : h0 < p.adjustHeight) :
    next_difficulty_with_statistics recorder p blockheight ts cd target =
      next_difficulty p ts cd target h0 := by
  have hlt : ¬ p.adjustHeight ≤ h0 := Nat.not_le.mpr hpre
  unfold next_difficulty_with_statistics next_difficulty nd_finish ndTotalWork
    ndTimeSpan ndCuts trimmedTs trimmedCd windowOf cutOf
  simp only [ge_iff_le, hlt, if_false]

/-- Witness for C4: concrete series, with a recorder that always fails. -/
theorem next_difficulty_with_statistics_eq_witness :
    next_difficulty_with_statistics (fun _ _ _ _ => (-1 : Int)) testParams 7
        [100, 110, 130] [0, 10, 30] 10 =
      next_difficulty testParams [100, 110, 130] [0, 10, 30] 10 0 :=
  next_difficulty_with_statistics_eq (fun _ _ _ _ => (-1 : Int)) testParams 7
    [100, 110, 130] [0, 10, 30] 10 0 (by norm_num [testParams])

/-- Monotonicity of the final scaled division, away from the overflow
signal: with the same positive time span and target, a larger total work
never yields a smaller result, provided the larger input does not
overflow. -/
theorem nd_finish_mono (tw1 tw2 target sp : Nat)
    (h1 : tw1 < 2^64) (h2 : tw2 < 2^64) (ht : target < 2^64)
    (hsp1 : 1 ≤ sp) (hsp2 : sp < 2^64)
    (htw : tw1 ≤ tw2)
    (hov : tw2 * target / 2^64 = 0 ∧ tw2 * target % 2^64 + sp - 1 < 2^64) :
    nd_finish tw1 target sp ≤ nd_finish tw2 target sp := by
  unfold nd_finish
  rw [mul_eq _ _ h1 ht, mul_eq _ _ h2 ht]
  simp only [ne_eq]
  have hp : tw1 * target ≤ tw2 * target := Nat.mul_le_mul_right target htw
  have h2' : tw2 * target < 2^64 := by
    rcases hov with ⟨hend, _⟩
    omega
  have h1' : tw1 * target < 2^64 := lt_of_le_of_lt hp h2'
  rw [if_neg (by omega : ¬ (¬ tw1 * target / 2^64 = 0 ∨
        (tw1 * target % 2^64 + sp - 1) % 2^64 < tw1 * target % 2^64)),
      if_neg (by omega : ¬ (¬ tw2 * target / 2^64 = 0 ∨
        (tw2 * target % 2^64 + sp - 1) % 2^64 < tw2 * target % 2^64))]
  apply Nat.div_le_div_right
  omega

/-- C7 (amended): for two inputs to `next_difficulty` that satisfy the
preconditions, select the same cut window, and yield the same time span
and target, if the first total work is at most the second and the second
does not trigger the overflow signal, the first result is at most the
second. -/
theorem next_difficulty_mono (p : Params) (ts1 cd1 ts2 cd2 : List Nat)
    (target height1 height2 : Nat)
    (hlen1 : ts1.length = cd1.length) (hlen2 : ts2.length = cd2.length)
    (htarget1 : 1 ≤ target) (htarget : target < 2^64)
    (hsz1 : 1 < (trimmedTs p ts1 height1).length)
    (hsz2 : 1 < (trimmedTs p ts2 height2).length)
    (hwork1 : 0 < ndTotalWork p ts1 cd1 height1)
    (hwork2 : 0 < ndTotalWork p ts2 cd2 height2)
    (hcuts : ndCuts p ts1 height1 = ndCuts p ts2 height2)
    (hspan : ndTimeSpan p ts1 height1 = ndTimeSpan p ts2 height2)
    (htw : ndTotalWork p ts1 cd1 height1 ≤ ndTotalWork p ts2 cd2 height2)
    (hov : ndTotalWork p ts2 cd2 height2 * target / 2^64 = 0 ∧
      ndTotalWork p ts2 cd2 height2 * target % 2^64 +
        ndTimeSpan p ts2 height2 - 1 < 2^64) :
    next_difficulty p ts1 cd1 target height1 ≤
      next_difficulty p ts2 cd2 target height2 := by
  unfold next_difficulty
  rw [if_neg (by omega), if_neg (by omega), hspan]
  exact nd_finish_mono _ _ _ _ (ndTotalWork_lt p ts1 cd1 height1)
    (ndTotalWork_lt p ts2 cd2 height2) htarget
    (ndTimeSpan_pos p ts2 height2) (ndTimeSpan_lt p ts2 height2) htw hov

set_option maxRecDepth 100000 in
/-- Witness for C7's amended statement: work series `[0,10,30]` versus
`[0,10,60]` over the same timestamps. -/
theorem next_difficulty_mono_witness :
    next_difficulty testParams [100, 110, 130] [0, 10, 30] 10 0 ≤
      next_difficulty testParams [100, 110, 130] [0, 10, 60] 10 0 :=
  next_difficulty_mono testParams [100, 110, 130] [0, 10, 30] [100, 110, 130]
    [0, 10, 60] 10 0 0 (by decide) (by decide) (by norm_num) (by norm_num)
    (by decide) (by decide) (by decide) (by decide) (by decide) (by decide)
    (by decide) (by decide)

set_option maxRecDepth 100000 in
/-- Counterexample to C7 as stated: same timestamps, same cut window,
same time span 1, same target 2^64-1; total work 1 versus 2.  The smaller
work yields 2^64-1 while the larger overflows the 128-bit guard and
yields the out-of-band 0, so the result decreases. -/
theorem next_difficulty_mono_cex :
    ndTotalWork testParams [0, 1] [0, 1] 0 = 1 ∧
      ndTotalWork testParams [0, 1] [0, 2] 0 = 2 ∧
      ndTimeSpan testParams [0, 1] 0 = 1 ∧
      next_difficulty testParams [0, 1] [0, 1] (2^64 - 1) 0 = 2^64 - 1 ∧
      next_difficulty testParams [0, 1] [0, 2] (2^64 - 1) 0 = 0 := by
  refine ⟨by decide, by decide, by decide, ?_, ?_⟩ <;> decide

/-- C8: when the timestamp series is within the height-selected window
(no truncation), `next_difficulty` is invariant under any permutation of
the timestamps, with the work series, target, and height held fixed: the
ascending sort neutralizes the ordering, and the work series is indexed
positionally, untouched by the sort. -/
theorem next_difficulty_perm (p : Params) (ts1 ts2 cd : List Nat) (target height : Nat)
    (hperm : ts1.Perm ts2) (hlen : ts1.length ≤ windowOf p height) :
    next_difficulty p ts1 cd target height = next_difficulty p ts2 cd target height := by
  have hlength : ts1.length = ts2.length := hperm.length_eq
  have htrim1 : trimmedTs p ts1 height = ts1 := by
    unfold trimmedTs
    rw [if_neg (by omega)]
  have htrim2 : trimmedTs p ts2 height = ts2 := by
    unfold trimmedTs
    rw [if_neg (by omega)]
  have hsort : List.insertionSort (fun a b => a ≤ b) ts1 =
      List.insertionSort (fun a b => a ≤ b) ts2 :=
    List.eq_of_perm_of_sorted
      ((List.perm_insertionSort _ ts1).trans
        (hperm.trans (List.perm_insertionSort _ ts2).symm))
      (List.sorted_insertionSort _ ts1) (List.sorted_insertionSort _ ts2)
  unfold next_difficulty ndTimeSpan ndTotalWork ndCuts trimmedCd
  rw [htrim1, htrim2, hsort, hlength]

/-- Witness for C8: a shuffled timestamp series gives the same result as
the sorted one. -/
theorem next_difficulty_perm_witness :
    next_difficulty testParams [130, 100, 110] [0, 10, 30] 10 0 =
      next_difficulty testParams [100, 110, 130] [0, 10, 30] 10 0 :=
  next_difficulty_perm testParams [130, 100, 110] [100, 110, 130] [0, 10, 30] 10 0
    (by decide) (by decide)

/-- Witness for C2 at the extreme inputs `2^64-1 * 2^64-1`. -/
theorem mul_exact_witness :
    (mul (2^64 - 1) (2^64 - 1)).2 * 2^64 + (mul (2^64 - 1) (2^64 - 1)).1 =
      (2^64 - 1) * (2^64 - 1) :=
  mul_exact (2^64 - 1) (2^64 - 1) (by norm_num) (by norm_num)

/-- An element read from a list of `B`-bounded numbers is below `B`. -/
theorem getD_lt (xs : List Nat) (B j : Nat) (hB : 0 < B) (h : ∀ x ∈ xs, x < B) :
    xs.getD j 0 < B := by
  rw [List.getD_eq_getElem?_getD]
  rcases lt_or_le j xs.length with hj | hj
  · rw [List.getElem?_eq_getElem hj, Option.getD_some]
    exact h _ (List.getElem_mem hj)
  · rw [List.getElem?_eq_none hj, Option.getD_none]
    exact hB

/-- One iteration of the weighted solve-time loop of `LWMA1_`
(difficulty.cpp lines 256-262), on the state
`(L, previous_timestamp)`, for loop counter `i = j + 1`:
out-of-sequence timestamps are forced forward by one, the solve time is
clamped to `6*T`, and `L` accumulates `i * solve_time` — all in
`uint64_t`. -/
def lwma1_step (timestamps : List Nat) (T : Nat) (st : Nat × Nat) (j : Nat) :
    Nat × Nat :=
  let i := j + 1
  let prev := st.2
  let tsi := timestamps.getD i 0
  let this_timestamp := if tsi > prev then tsi else (prev + 1) % 2^64
  ((st.1 + i * min (6 * T % 2^64) (sub64 this_timestamp prev) % 2^64) % 2^64,
    this_timestamp)

/-- The state `(L, previous_timestamp)` after the full loop `i = 1..N` of
`LWMA1_`, seeded with `previous_timestamp = timestamps[0] - T`. -/
def lwma1_state (timestamps : List Nat) (T N : Nat) : Nat × Nat :=
  (List.range N).foldl (lwma1_step timestamps T) (0, sub64 (timestamps.getD 0 0) T)

/-- `L` after the accumulation loop of `LWMA1_`. -/
def lwma1_L (timestamps : List Nat) (T N : Nat) : Nat :=
  (lwma1_state timestamps T N).1

/-- `L` after the floor step `if (L < N*N*T/20) L = N*N*T/20;`
(difficulty.cpp line 263), with the `uint64_t` products reduced. -/
def lwma1_L_floored (timestamps : List Nat) (T N : Nat) : Nat :=
  let L := lwma1_L timestamps T N
  let floorv := N * N % 2^64 * T % 2^64 / 20
  if L < floorv then floorv else L

/-- `avg_D = (cumulative_difficulties[N] - cumulative_difficulties[0]) / N`
(difficulty.cpp line 264); division by `N = 0` would be C++ undefined
behaviour and is excluded by every claim (`N ≥ 1`). -/
def lwma1_avgD (cumulative_difficulties : List Nat) (N : Nat) : Nat :=
  sub64 (cumulative_difficulties.getD N 0) (cumulative_difficulties.getD 0 0) / N

/-- The scale factors visited by the cosmetic rounding loop of `LWMA1_`
(lines 273-277): `i` starts at `10^9` and is divided by 10 until it
reaches 1. -/
def round_scales : List Nat :=
  [1000000000, 100000000, 10000000, 1000000, 100000, 10000, 1000, 100, 10]

/-- The body of the rounding loop: at the first scale `i` with
`next_D > i*100`, replace `next_D` by `((next_D + i/2)/i)*i` (`uint64_t`
addition) and stop; otherwise move to the next scale. -/
def round_go : List Nat → Nat → Nat
  | [], x => x
  | i :: rest, x => if x > i * 100 then (x + i / 2) % 2^64 / i * i else round_go rest x

/-- The digit-rounding step of `LWMA1_`: make all insignificant digits
zero. -/
def lwma1_round (x : Nat) : Nat := round_go round_scales x

/-- `LWMA1_` from difficulty.cpp (lines 238-279).  The bootstrap window
comparison `height < FORK_HEIGHT + N` is 64-bit (the sum wraps); the
divisions `/(200*L)` are on the 64-bit value of `200*L` (zero would be
C++ undefined behaviour; the relevant claims exclude it). -/
def LWMA1_ (timestamps cumulative_difficulties : List Nat)
    (T N height FORK_HEIGHT difficulty_guess : Nat) : Nat :=
  if FORK_HEIGHT ≤ height ∧ height < (FORK_HEIGHT + N) % 2^64 then difficulty_guess
  else
    let L := lwma1_L_floored timestamps T N
    let avg_D := lwma1_avgD cumulative_difficulties N
    let next_D :=
      if avg_D > 2000000 * N % 2^64 * N % 2^64 * T % 2^64 then
        avg_D / (200 * L % 2^64) *
          (N * ((N + 1) % 2^64) % 2^64 * T % 2^64 * 99 % 2^64) % 2^64
      else
        avg_D * N % 2^64 * ((N + 1) % 2^64) % 2^64 * T % 2^64 * 99 % 2^64 /
          (200 * L % 2^64)
    lwma1_round next_D

/-- C5 (amended): inside the bootstrap window
`fork_height ≤ height < fork_height + N`, provided the 64-bit sum
`fork_height + N` does not wrap, `LWMA1_` returns `difficulty_guess`
unchanged, whatever the series contain. -/
theorem lwma1_bootstrap (ts cd : List Nat) (T N height FORK_HEIGHT guess : Nat)
    (hlen : ts.length = cd.length) (hsz : ts.length ≤ N + 1)
    (h1 : FORK_HEIGHT ≤ height) (h2 : height < FORK_HEIGHT + N)
    (hnw : FORK_HEIGHT + N < 2^64) :
    LWMA1_ ts cd T N height FORK_HEIGHT guess = guess := by
  unfold LWMA1_
  rw [if_pos ⟨h1, by rw [Nat.mod_eq_of_lt hnw]; exact h2⟩]

/-- Witness for C5's amended statement: height 10 inside `[9, 12)`. -/
theorem lwma1_bootstrap_witness :
    LWMA1_ [1, 2] [3, 4] 5 3 10 9 7 = 7 :=
  lwma1_bootstrap [1, 2] [3, 4] 5 3 10 9 7 (by decide) (by decide) (by norm_num)
    (by norm_num) (by norm_num)

set_option maxRecDepth 100000 in
/-- Counterexample to C5 as stated: with `fork_height = 2^64-1`, `N = 1`,
`height = 2^64-1`, the bootstrap window `fork_height ≤ height <
fork_height + N` contains the height, but the 64-bit sum
`FORK_HEIGHT + N` wraps to 0, the code falls through to the weighted
average, and returns 0 instead of the guess 7. -/
theorem lwma1_bootstrap_cex :
    (2^64 - 1 : Nat) ≤ 2^64 - 1 ∧ (2^64 - 1 : Nat) < (2^64 - 1) + 1 ∧
      LWMA1_ [0, 0] [0, 0] 1 1 (2^64 - 1) (2^64 - 1) 7 = 0 :=
  ⟨le_refl _, by norm_num, by decide⟩

/-- Unfolding one iteration of the `LWMA1_` accumulation loop. -/
theorem lwma1_state_succ (ts : List Nat) (T n : Nat) :
    lwma1_state ts T (n + 1) = lwma1_step ts T (lwma1_state ts T n) n := by
  unfold lwma1_state
  rw [List.range_succ, List.foldl_append, List.foldl_cons, List.foldl_nil]

/-- Loop invariant of the `LWMA1_` accumulation: after `n ≤ N`
iterations, absent 64-bit wraparound (`3*T*N*(N+1) < 2^64`), the
accumulator lies between the bare weight sum `n*(n+1)/2` (every clamped
solve time is at least 1) and `3*T*n*(n+1)` (every clamped solve time is
at most `6*T`), and the previous-timestamp register is a 64-bit value. -/
theorem lwma1_state_invariant (ts : List Nat) (T N : Nat) (n : Nat)
    (hT : 1 ≤ T) (hts : ∀ x ∈ ts, x < 2^64)
    (hnw : 3 * T * N * (N + 1) < 2^64) (hn : n ≤ N) :
    n * (n + 1) / 2 ≤ (lwma1_state ts T n).1 ∧
      (lwma1_state ts T n).1 ≤ 3 * T * n * (n + 1) ∧
      (lwma1_state ts T n).2 < 2^64 := by
  induction n with
  | zero =>
    unfold lwma1_state sub64
    simp only [List.range_zero, List.foldl_nil]
    refine ⟨by omega, by omega, by omega⟩
  | succ n ih =>
    obtain ⟨ih1, ih2, ih3⟩ := ih (by omega)
    have hN1 : 1 ≤ N := by omega
    have h2N : 2 ≤ N * (N + 1) := by
      have := Nat.mul_le_mul hN1 (show 2 ≤ N + 1 by omega)
      omega
    have h6 : 6 * T ≤ 3 * T * N * (N + 1) := by
      have h := Nat.mul_le_mul_left (3 * T) h2N
      calc 6 * T = 3 * T * 2 := by ring
        _ ≤ 3 * T * (N * (N + 1)) := h
        _ = 3 * T * N * (N + 1) := by ring
    have h6T : 6 * T % 2^64 = 6 * T := Nat.mod_eq_of_lt (by omega)
    have htsi : ts.getD (n + 1) 0 < 2^64 := getD_lt ts _ _ (by norm_num) hts
    have f1 : n + 1 ≤ (n + 1) * (6 * T) := by
      have := Nat.mul_le_mul_left (n + 1) (show 1 ≤ 6 * T by omega)
      omega
    have f3 : 3 * T * (n + 1) * (n + 1 + 1) = 3 * T * n * (n + 1) + (n + 1) * (6 * T) := by
      ring
    have f4 : 3 * T * (n + 1) * (n + 1 + 1) ≤ 3 * T * N * (N + 1) :=
      Nat.mul_le_mul (Nat.mul_le_mul_left (3 * T) (by omega)) (by omega)
    have f5 : (n + 1) * (n + 1 + 1) = n * (n + 1) + 2 * (n + 1) := by ring
    rw [lwma1_state_succ]
    unfold lwma1_step
    dsimp only
    rw [h6T]
    by_cases hc : ts.getD (n + 1) 0 > (lwma1_state ts T n).2
    · rw [if_pos hc]
      have hsub : sub64 (ts.getD (n + 1) 0) (lwma1_state ts T n).2 =
          ts.getD (n + 1) 0 - (lwma1_state ts T n).2 := by
        unfold sub64
        omega
      rw [hsub]
      have hm1 : 1 ≤ min (6 * T) (ts.getD (n + 1) 0 - (lwma1_state ts T n).2) :=
        le_min (by omega) (by omega)
      have hm2 : min (6 * T) (ts.getD (n + 1) 0 - (lwma1_state ts T n).2) ≤ 6 * T :=
        min_le_left _ _
      have g1 : (n + 1) * 1 ≤
          (n + 1) * min (6 * T) (ts.getD (n + 1) 0 - (lwma1_state ts T n).2) :=
        Nat.mul_le_mul_left _ hm1
      have g2 : (n + 1) * min (6 * T) (ts.getD (n + 1) 0 - (lwma1_state ts T n).2) ≤
          (n + 1) * (6 * T) :=
        Nat.mul_le_mul_left _ hm2
      refine ⟨by omega, by omega, by omega⟩
    · rw [if_neg hc]
      have hsub : sub64 (((lwma1_state ts T n).2 + 1) % 2^64) (lwma1_state ts T n).2 = 1 := by
        unfold sub64
        omega
      rw [hsub]
      have hmin : min (6 * T) 1 = 1 := by omega
      rw [hmin]
      refine ⟨by omega, by omega, by omega⟩

/-- C10 (amended): with `T ≥ 1`, `N ≥ 1` and no 64-bit wraparound in the
accumulation (`3*T*N*(N+1) < 2^64`, the maximal possible `L`), the loop
value `L` is at least the bare weight sum `N*(N+1)/2` (each clamped solve
time is at least 1), the floored `L` is at least
`max(N*(N+1)/2, N*N*T/20) > 0`, and whenever `200*L` does not wrap, the
divisor `200*L` of the subsequent divisions is positive. -/
theorem lwma1_L_floored_spec (ts : List Nat) (T N : Nat)
    (hT : 1 ≤ T) (hN : 1 ≤ N) (hts : ∀ x ∈ ts, x < 2^64)
    (hnw : 3 * T * N * (N + 1) < 2^64) :
    N * (N + 1) / 2 ≤ lwma1_L ts T N ∧
      N * (N + 1) / 2 ≤ lwma1_L_floored ts T N ∧
      N * N * T / 20 ≤ lwma1_L_floored ts T N ∧
      0 < lwma1_L_floored ts T N ∧
      (200 * lwma1_L_floored ts T N < 2^64 →
        0 < 200 * lwma1_L_floored ts T N % 2^64) := by
  obtain ⟨h1, h2, -⟩ := lwma1_state_invariant ts T N N hT hts hnw (le_refl N)
  have fc : N * N ≤ N * N * T := Nat.le_mul_of_pos_right _ (by omega)
  have fa : N * N * T ≤ N * (N + 1) * T :=
    Nat.mul_le_mul_right T (Nat.mul_le_mul_left N (by omega))
  have fb : N * (N + 1) * T * 3 = 3 * T * N * (N + 1) := by ring
  have h2N : 2 ≤ N * (N + 1) := by
    have := Nat.mul_le_mul hN (show 2 ≤ N + 1 by omega)
    omega
  have e1 : N * N % 2^64 = N * N := Nat.mod_eq_of_lt (by omega)
  have hL : lwma1_L ts T N = (lwma1_state ts T N).1 := rfl
  unfold lwma1_L_floored
  dsimp only
  rw [e1]
  have e2 : N * N * T % 2^64 = N * N * T := Nat.mod_eq_of_lt (by omega)
  rw [e2, hL]
  generalize hg : (lwma1_state ts T N).1 = Lv at h1 h2 ⊢
  clear hg hts
  split_ifs with hf
  · have hpos : 0 < N * N * T / 20 := by omega
    exact ⟨h1, by omega, le_refl _, hpos,
      fun h => by rw [Nat.mod_eq_of_lt h]; omega⟩
  · have hpos : 0 < Lv := by omega
    exact ⟨h1, h1, by omega, hpos,
      fun h => by rw [Nat.mod_eq_of_lt h]; omega⟩

/-- Upper bound for the floored accumulator: absent wraparound it never
exceeds the maximal weighted sum of fully-clamped solve times. -/
theorem lwma1_L_floored_le (ts : List Nat) (T N : Nat)
    (hT : 1 ≤ T) (hN : 1 ≤ N) (hts : ∀ x ∈ ts, x < 2^64)
    (hnw : 3 * T * N * (N + 1) < 2^64) :
    lwma1_L_floored ts T N ≤ 3 * T * N * (N + 1) := by
  obtain ⟨-, h2, -⟩ := lwma1_state_invariant ts T N N hT hts hnw (le_refl N)
  have fc : N * N ≤ N * N * T := Nat.le_mul_of_pos_right _ (by omega)
  have fa : N * N * T ≤ N * (N + 1) * T :=
    Nat.mul_le_mul_right T (Nat.mul_le_mul_left N (by omega))
  have fb : N * (N + 1) * T * 3 = 3 * T * N * (N + 1) := by ring
  have e1 : N * N % 2^64 = N * N := Nat.mod_eq_of_lt (by omega)
  have hL : lwma1_L ts T N = (lwma1_state ts T N).1 := rfl
  unfold lwma1_L_floored
  dsimp only
  rw [e1]
  have e2 : N * N * T % 2^64 = N * N * T := Nat.mod_eq_of_lt (by omega)
  rw [e2, hL]
  split_ifs with hf
  · omega
  · omega

/-- Witness for C10's amended statement: `T = 60`, `N = 2`, timestamps
60 seconds apart. -/
theorem lwma1_L_floored_spec_witness :
    2 * (2 + 1) / 2 ≤ lwma1_L [1000, 1060, 1120] 60 2 ∧
      2 * (2 + 1) / 2 ≤ lwma1_L_floored [1000, 1060, 1120] 60 2 ∧
      2 * 2 * 60 / 20 ≤ lwma1_L_floored [1000, 1060, 1120] 60 2 ∧
      0 < lwma1_L_floored [1000, 1060, 1120] 60 2 ∧
      (200 * lwma1_L_floored [1000, 1060, 1120] 60 2 < 2^64 →
        0 < 200 * lwma1_L_floored [1000, 1060, 1120] 60 2 % 2^64) :=
  lwma1_L_floored_spec [1000, 1060, 1120] 60 2 (by norm_num) (by norm_num)
    (by decide) (by norm_num)

set_option maxRecDepth 1000000 in
/-- Counterexample to C10 as stated: `T = 2^63`, `N = 2`: the 64-bit
product `6*T` wraps to 0, so every clamped solve time is
`min(0, solve) = 0`, the accumulated `L` is 0, and the floor
`N*N*T/20` also wraps to 0 — `L` stays 0 below the claimed bound
`max(N*(N+1)/2, N*N*T/20) ≥ 3`, and the subsequent division is by zero. -/
theorem lwma1_L_floored_cex :
    1 ≤ (2^63 : Nat) ∧ 1 ≤ 2 ∧ lwma1_L_floored [0, 0, 0] (2^63) 2 = 0 :=
  ⟨by norm_num, by norm_num, by decide⟩

/-- The accumulator never decreases through the floor step. -/
theorem lwma1_L_le_floored (ts : List Nat) (T N : Nat) :
    lwma1_L ts T N ≤ lwma1_L_floored ts T N := by
  unfold lwma1_L_floored
  dsimp only
  split_ifs with hf
  · omega
  · omega

/-- The rounding loop maps positive 64-bit values that cannot wrap in the
half-scale addition to positive values: a triggered scale `i` yields
`((x + i/2)/i)*i ≥ 100*i > 0`, an untriggered pass returns `x` itself. -/
theorem round_go_pos (scales : List Nat) (x : Nat)
    (hs : ∀ s ∈ scales, 0 < s ∧ s ≤ 1000000000)
    (hx1 : 1 ≤ x) (hx2 : x + 500000000 < 2^64) :
    1 ≤ round_go scales x := by
  induction scales with
  | nil => exact hx1
  | cons i rest ih =>
    unfold round_go
    obtain ⟨hi0, hi9⟩ := hs i (by simp)
    split_ifs with hc
    · have hmod : (x + i / 2) % 2^64 = x + i / 2 := Nat.mod_eq_of_lt (by omega)
      rw [hmod]
      have hq : 100 ≤ (x + i / 2) / i := by
        rw [Nat.le_div_iff_mul_le hi0]
        omega
      exact Nat.one_le_iff_ne_zero.mpr (Nat.mul_ne_zero (by omega) (by omega))
    · exact ih (fun s hsm => hs s (by simp [hsm]))

/-- Positivity of the full rounding step on positive inputs below
`2^64 - 5*10^8`. -/
theorem lwma1_round_pos (x : Nat) (hx1 : 1 ≤ x) (hx2 : x + 500000000 < 2^64) :
    1 ≤ lwma1_round x :=
  round_go_pos round_scales x (by decide) hx1 hx2

/-- C6 (amended): under the claim's preconditions plus an average work of
at least 7 that stays in the precise-division branch
(`avg_D ≤ 2000000*N²*T`) and absence of 64-bit wraparound in the scaled
products (`2000000*N²*T < 2^64` and `avg_D*N*(N+1)*T*99 < 2^64`), the
difficulty returned by `LWMA1_` outside the bootstrap window is at
least 1. -/
theorem lwma1_positive (ts cd : List Nat) (T N height FORK_HEIGHT guess : Nat)
    (hlen : ts.length = cd.length) (hsz : ts.length = N + 1)
    (hT : 1 ≤ T) (hN : 1 ≤ N)
    (hts : ∀ x ∈ ts, x < 2^64) (hcd : ∀ x ∈ cd, x < 2^64)
    (hmono : List.Sorted (fun a b => a ≤ b) cd)
    (hout : ¬ (FORK_HEIGHT ≤ height ∧ height < (FORK_HEIGHT + N) % 2^64))
    (h7 : 7 ≤ lwma1_avgD cd N)
    (hble : lwma1_avgD cd N ≤ 2000000 * N * N * T)
    (hw1 : 2000000 * N * N * T < 2^64)
    (hw2 : lwma1_avgD cd N * N * (N + 1) * T * 99 < 2^64) :
    1 ≤ LWMA1_ ts cd T N height FORK_HEIGHT guess := by
  set A := lwma1_avgD cd N with hA
  have hA1 : 1 ≤ A := by omega
  have hNT : 1 ≤ N * T := by
    have := Nat.mul_le_mul hN hT
    omega
  have hT99 : 1 ≤ T * 99 := by omega
  have hN199 : 1 ≤ (N + 1) * (T * 99) := by
    have := Nat.mul_le_mul (show 1 ≤ N + 1 by omega) hT99
    omega
  have hAN : 1 ≤ A * N := by
    have := Nat.mul_le_mul hA1 hN
    omega
  have c1 : 7 * (N * (N + 1) * (T * 99)) ≤ A * (N * (N + 1) * (T * 99)) :=
    Nat.mul_le_mul_right _ h7
  have c2 : A * (N * (N + 1) * (T * 99)) = A * N * (N + 1) * T * 99 := by ring
  have c3 : 7 * (N * (N + 1) * (T * 99)) = 693 * (T * N * (N + 1)) := by ring
  have c4 : 3 * (T * N * (N + 1)) ≤ 693 * (T * N * (N + 1)) :=
    Nat.mul_le_mul_right _ (by norm_num)
  have c5 : 3 * (T * N * (N + 1)) = 3 * T * N * (N + 1) := by ring
  have h600a : 600 * (T * N * (N + 1)) ≤ 693 * (T * N * (N + 1)) :=
    Nat.mul_le_mul_right _ (by norm_num)
  have hnw : 3 * T * N * (N + 1) < 2^64 := by omega
  have hinv := lwma1_state_invariant ts T N N hT hts hnw (le_refl N)
  have hLf1 : N * (N + 1) / 2 ≤ lwma1_L ts T N := hinv.1
  have hLmax : lwma1_L ts T N ≤ lwma1_L_floored ts T N := lwma1_L_le_floored ts T N
  have hLle := lwma1_L_floored_le ts T N hT hN hts hnw
  have h2N : 2 ≤ N * (N + 1) := by
    have := Nat.mul_le_mul hN (show 2 ≤ N + 1 by omega)
    omega
  have hLfpos : 1 ≤ lwma1_L_floored ts T N := by omega
  have h200 : 200 * lwma1_L_floored ts T N ≤ 600 * (T * N * (N + 1)) := by
    have h := Nat.mul_le_mul_left 200 hLle
    have e : 200 * (3 * T * N * (N + 1)) = 600 * (T * N * (N + 1)) := by ring
    omega
  have h200lt : 200 * lwma1_L_floored ts T N < 2^64 := by omega
  have e200 : 200 * lwma1_L_floored ts T N % 2^64 = 200 * lwma1_L_floored ts T N :=
    Nat.mod_eq_of_lt h200lt
  have fm1a : 2000000 * N * (N * T) = 2000000 * N * N * T := by ring
  have fm1b : 2000000 * N * 1 ≤ 2000000 * N * (N * T) := Nat.mul_le_mul_left _ hNT
  have m1 : 2000000 * N % 2^64 = 2000000 * N := Nat.mod_eq_of_lt (by omega)
  have fm2 : 2000000 * N * N * 1 ≤ 2000000 * N * N * T := Nat.mul_le_mul_left _ hT
  have m2 : 2000000 * N * N % 2^64 = 2000000 * N * N := Nat.mod_eq_of_lt (by omega)
  have m3 : 2000000 * N * N * T % 2^64 = 2000000 * N * N * T := Nat.mod_eq_of_lt hw1
  have fn1a : A * N * ((N + 1) * (T * 99)) = A * N * (N + 1) * T * 99 := by ring
  have fn1b : A * N * 1 ≤ A * N * ((N + 1) * (T * 99)) := Nat.mul_le_mul_left _ hN199
  have n1 : A * N % 2^64 = A * N := Nat.mod_eq_of_lt (by omega)
  have fn2a : 1 * (N + 1) ≤ A * N * (N + 1) := Nat.mul_le_mul_right _ hAN
  have fn2b : A * N * (N + 1) * 1 ≤ A * N * (N + 1) * (T * 99) := Nat.mul_le_mul_left _ hT99
  have fn2c : A * N * (N + 1) * (T * 99) = A * N * (N + 1) * T * 99 := by ring
  have n2 : (N + 1) % 2^64 = N + 1 := Nat.mod_eq_of_lt (by omega)
  have n3 : A * N * (N + 1) % 2^64 = A * N * (N + 1) := Nat.mod_eq_of_lt (by omega)
  have fn4 : A * N * (N + 1) * T * 1 ≤ A * N * (N + 1) * T * 99 := by
    have e : A * N * (N + 1) * T * 99 = A * N * (N + 1) * (T * 99) := by ring
    have h := Nat.mul_le_mul_left (A * N * (N + 1)) hT99
    have e2 : A * N * (N + 1) * T * 1 = A * N * (N + 1) * (T * 1) := by ring
    omega
  have n4 : A * N * (N + 1) * T % 2^64 = A * N * (N + 1) * T := Nat.mod_eq_of_lt (by omega)
  have n5 : A * N * (N + 1) * T * 99 % 2^64 = A * N * (N + 1) * T * 99 :=
    Nat.mod_eq_of_lt hw2
  unfold LWMA1_
  rw [if_neg hout]
  dsimp only
  rw [← hA, m1, m2, m3, if_neg (Nat.not_lt.mpr hble), n1, n2, n3, n4, n5, e200]
  have hD1 : 1 ≤ A * N * (N + 1) * T * 99 / (200 * lwma1_L_floored ts T N) := by
    rw [Nat.le_div_iff_mul_le (by omega : 0 < 200 * lwma1_L_floored ts T N)]
    omega
  have hDle : A * N * (N + 1) * T * 99 / (200 * lwma1_L_floored ts T N) ≤
      A * N * (N + 1) * T * 99 / 200 :=
    Nat.div_le_div_left (by omega) (by norm_num)
  have hub : A * N * (N + 1) * T * 99 / 200 ≤ (2^64 - 1) / 200 :=
    Nat.div_le_div_right (by omega)
  exact lwma1_round_pos _ hD1 (by omega)

set_option maxRecDepth 1000000 in
/-- Counterexample to C6 as stated: `N = 1`, `T = 1`, height 100 well
outside the bootstrap window `[10, 11)`, series lengths `N+1 = 2`,
cumulative work `[5, 5]` monotonically non-decreasing — yet the average
work is 0 and `LWMA1_` returns 0, the reserved failure value, as a
regular result. -/
theorem lwma1_positive_cex :
    LWMA1_ [0, 0] [5, 5] 1 1 100 10 7 = 0 := by decide

set_option maxRecDepth 1000000 in
/-- Witness for C6's amended statement. -/
theorem lwma1_positive_witness :
    1 ≤ LWMA1_ [0, 1] [0, 7] 1 1 100 10 9 :=
  lwma1_positive [0, 1] [0, 7] 1 1 100 10 9 (by decide) (by decide) (by norm_num)
    (by norm_num) (by decide) (by decide) (by decide) (by decide) (by decide)
    (by decide) (by norm_num) (by decide)

/-- A triggered rounding branch fixes multiples of its scale that cannot
wrap: for `s ∣ y`, `((y + s/2)/s)*s = y`. -/
theorem round1_fix (s y : Nat) (h0 : 0 < s) (hdvd : s ∣ y)
    (hnw : y + s / 2 < 2^64) :
    (y + s / 2) % 2^64 / s * s = y := by
  obtain ⟨c, rfl⟩ := hdvd
  rw [Nat.mod_eq_of_lt hnw, add_comm (s * c) (s / 2), Nat.add_mul_div_left _ _ h0,
    Nat.div_eq_of_lt (by omega), zero_add]
  exact Nat.mul_comm c s

/-- Evaluation of the rounding step when no scale triggers
(`z ≤ 1000`). -/
theorem round_eval_none (z : Nat) (h : z ≤ 1000) : lwma1_round z = z := by
  unfold lwma1_round round_scales
  simp only [round_go]
  repeat rw [if_neg (by omega)]

/-- Evaluation of the rounding step at the top scale `10^9`. -/
theorem round_eval_9 (z : Nat) (h1 : 100000000000 < z) :
    lwma1_round z = (z + 1000000000 / 2) % 2^64 / 1000000000 * 1000000000 := by
  unfold lwma1_round round_scales
  simp only [round_go]
  rw [if_pos (by omega)]

/-- Evaluation of the rounding step at scale `10^8`. -/
theorem round_eval_8 (z : Nat) (h1 : 10000000000 < z) (h2 : z ≤ 100000000000) :
    lwma1_round z = (z + 100000000 / 2) % 2^64 / 100000000 * 100000000 := by
  unfold lwma1_round round_scales
  simp only [round_go]
  repeat rw [if_neg (by omega)]
  rw [if_pos (by omega)]

/-- Evaluation of the rounding step at scale `10^7`. -/
theorem round_eval_7 (z : Nat) (h1 : 1000000000 < z) (h2 : z ≤ 10000000000) :
    lwma1_round z = (z + 10000000 / 2) % 2^64 / 10000000 * 10000000 := by
  unfold lwma1_round round_scales
  simp only [round_go]
  repeat rw [if_neg (by omega)]
  rw [if_pos (by omega)]

/-- Evaluation of the rounding step at scale `10^6`. -/
theorem round_eval_6 (z : Nat) (h1 : 100000000 < z) (h2 : z ≤ 1000000000) :
    lwma1_round z = (z + 1000000 / 2) % 2^64 / 1000000 * 1000000 := by
  unfold lwma1_round round_scales
  simp only [round_go]
  repeat rw [if_neg (by omega)]
  rw [if_pos (by omega)]

/-- Evaluation of the rounding step at scale `10^5`. -/
theorem round_eval_5 (z : Nat) (h1 : 10000000 < z) (h2 : z ≤ 100000000) :
    lwma1_round z = (z + 100000 / 2) % 2^64 / 100000 * 100000 := by
  unfold lwma1_round round_scales
  simp only [round_go]
  repeat rw [if_neg (by omega)]
  rw [if_pos (by omega)]

/-- Evaluation of the rounding step at scale `10^4`. -/
theorem round_eval_4 (z : Nat) (h1 : 1000000 < z) (h2 : z ≤ 10000000) :
    lwma1_round z = (z + 10000 / 2) % 2^64 / 10000 * 10000 := by
  unfold lwma1_round round_scales
  simp only [round_go]
  repeat rw [if_neg (by omega)]
  rw [if_pos (by omega)]

/-- Evaluation of the rounding step at scale `10^3`. -/
theorem round_eval_3 (z : Nat) (h1 : 100000 < z) (h2 : z ≤ 1000000) :
    lwma1_round z = (z + 1000 / 2) % 2^64 / 1000 * 1000 := by
  unfold lwma1_round round_scales
  simp only [round_go]
  repeat rw [if_neg (by omega)]
  rw [if_pos (by omega)]

/-- Evaluation of the rounding step at scale `10^2`. -/
theorem round_eval_2 (z : Nat) (h1 : 10000 < z) (h2 : z ≤ 100000) :
    lwma1_round z = (z + 100 / 2) % 2^64 / 100 * 100 := by
  unfold lwma1_round round_scales
  simp only [round_go]
  repeat rw [if_neg (by omega)]
  rw [if_pos (by omega)]

/-- Evaluation of the rounding step at scale `10^1`. -/
theorem round_eval_1 (z : Nat) (h1 : 1000 < z) (h2 : z ≤ 10000) :
    lwma1_round z = (z + 10 / 2) % 2^64 / 10 * 10 := by
  unfold lwma1_round round_scales
  simp only [round_go]
  repeat rw [if_neg (by omega)]
  rw [if_pos (by omega)]

/-- Multiples of `10^9` below `2^64` are fixed points of the rounding
step. -/
theorem round_fix_top (y : Nat) (hdvd : 1000000000 ∣ y) (hy : y < 2^64) :
    lwma1_round y = y := by
  rcases Nat.eq_zero_or_pos y with rfl | hpos
  · exact round_eval_none 0 (by norm_num)
  · have h9 : 1000000000 ≤ y := Nat.le_of_dvd hpos hdvd
    by_cases hbig : 100000000000 < y
    · rw [round_eval_9 y hbig]
      exact round1_fix 1000000000 y (by norm_num) hdvd (by omega)
    · by_cases hb1 : 10000000000 < y
      · rw [round_eval_8 y hb1 (by omega)]
        exact round1_fix 100000000 y (by norm_num)
          (dvd_trans (by norm_num) hdvd) (by omega)
      · by_cases hb2 : 1000000000 < y
        · rw [round_eval_7 y hb2 (by omega)]
          exact round1_fix 10000000 y (by norm_num)
            (dvd_trans (by norm_num) hdvd) (by omega)
        · rw [round_eval_6 y (by omega) (by omega)]
          exact round1_fix 1000000 y (by norm_num)
            (dvd_trans (by norm_num) hdvd) (by omega)

/-- Multiples of `10^8` in the output range of the `10^8` branch are
fixed points of the rounding step. -/
theorem round_fix_8 (y : Nat) (hdvd : 100000000 ∣ y) (hlo : 10000000000 ≤ y)
    (hhi : y ≤ 100000000000) :
    lwma1_round y = y := by
  rcases eq_or_lt_of_le hlo with heq | hgt
  · rw [round_eval_7 y (by omega) (by omega)]
    exact round1_fix 10000000 y (by norm_num) (dvd_trans (by norm_num) hdvd) (by omega)
  · rw [round_eval_8 y hgt (by omega)]
    exact round1_fix 100000000 y (by norm_num) hdvd (by omega)

/-- Multiples of `10^7` in the output range of the `10^7` branch are
fixed points of the rounding step. -/
theorem round_fix_7 (y : Nat) (hdvd : 10000000 ∣ y) (hlo : 1000000000 ≤ y)
    (hhi : y ≤ 10000000000) :
    lwma1_round y = y := by
  rcases eq_or_lt_of_le hlo with heq | hgt
  · rw [round_eval_6 y (by omega) (by omega)]
    exact round1_fix 1000000 y (by norm_num) (dvd_trans (by norm_num) hdvd) (by omega)
  · rw [round_eval_7 y hgt (by omega)]
    exact round1_fix 10000000 y (by norm_num) hdvd (by omega)

/-- Multiples of `10^6` in the output range of the `10^6` branch are
fixed points of the rounding step. -/
theorem round_fix_6 (y : Nat) (hdvd : 1000000 ∣ y) (hlo : 100000000 ≤ y)
    (hhi : y ≤ 1000000000) :
    lwma1_round y = y := by
  rcases eq_or_lt_of_le hlo with heq | hgt
  · rw [round_eval_5 y (by omega) (by omega)]
    exact round1_fix 100000 y (by norm_num) (dvd_trans (by norm_num) hdvd) (by omega)
  · rw [round_eval_6 y hgt (by omega)]
    exact round1_fix 1000000 y (by norm_num) hdvd (by omega)

/-- Multiples of `10^5` in the output range of the `10^5` branch are
fixed points of the rounding step. -/
theorem round_fix_5 (y : Nat) (hdvd : 100000 ∣ y) (hlo : 10000000 ≤ y)
    (hhi : y ≤ 100000000) :
    lwma1_round y = y := by
  rcases eq_or_lt_of_le hlo with heq | hgt
  · rw [round_eval_4 y (by omega) (by omega)]
    exact round1_fix 10000 y (by norm_num) (dvd_trans (by norm_num) hdvd) (by omega)
  · rw [round_eval_5 y hgt (by omega)]
    exact round1_fix 100000 y (by norm_num) hdvd (by omega)

/-- Multiples of `10^4` in the output range of the `10^4` branch are
fixed points of the rounding step. -/
theorem round_fix_4 (y : Nat) (hdvd : 10000 ∣ y) (hlo : 1000000 ≤ y)
    (hhi : y ≤ 10000000) :
    lwma1_round y = y := by
  rcases eq_or_lt_of_le hlo with heq | hgt
  · rw [round_eval_3 y (by omega) (by omega)]
    exact round1_fix 1000 y (by norm_num) (dvd_trans (by norm_num) hdvd) (by omega)
  · rw [round_eval_4 y hgt (by omega)]
    exact round1_fix 10000 y (by norm_num) hdvd (by omega)

/-- Multiples of `10^3` in the output range of the `10^3` branch are
fixed points of the rounding step. -/
theorem round_fix_3 (y : Nat) (hdvd : 1000 ∣ y) (hlo : 100000 ≤ y)
    (hhi : y ≤ 1000000) :
    lwma1_round y = y := by
  rcases eq_or_lt_of_le hlo with heq | hgt
  · rw [round_eval_2 y (by omega) (by omega)]
    exact round1_fix 100 y (by norm_num) (dvd_trans (by norm_num) hdvd) (by omega)
  · rw [round_eval_3 y hgt (by omega)]
    exact round1_fix 1000 y (by norm_num) hdvd (by omega)

/-- Multiples of `10^2` in the output range of the `10^2` branch are
fixed points of the rounding step. -/
theorem round_fix_2 (y : Nat) (hdvd : 100 ∣ y) (hlo : 10000 ≤ y)
    (hhi : y ≤ 100000) :
    lwma1_round y = y := by
  rcases eq_or_lt_of_le hlo with heq | hgt
  · rw [round_eval_1 y (by omega) (by omega)]
    exact round1_fix 10 y (by norm_num) (dvd_trans (by norm_num) hdvd) (by omega)
  · rw [round_eval_2 y hgt (by omega)]
    exact round1_fix 100 y (by norm_num) hdvd (by omega)

/-- Multiples of 10 in the output range of the scale-10 branch are fixed
points of the rounding step. -/
theorem round_fix_1 (y : Nat) (hdvd : 10 ∣ y) (hlo : 1000 ≤ y) (hhi : y ≤ 10000) :
    lwma1_round y = y := by
  rcases eq_or_lt_of_le hlo with heq | hgt
  · rw [round_eval_none y (by omega)]
  · rw [round_eval_1 y hgt (by omega)]
    exact round1_fix 10 y (by norm_num) hdvd (by omega)

/-- C9: the digit-rounding step of `LWMA1_` is idempotent on 64-bit
values: rounding an already-rounded value returns it unchanged. -/
theorem lwma1_round_idem (x : Nat) (hx : x < 2^64) :
    lwma1_round (lwma1_round x) = lwma1_round x := by
  by_cases c9 : 100000000000 < x
  · rw [round_eval_9 x c9]
    refine round_fix_top _ (dvd_mul_left 1000000000 _) ?_
    have h := Nat.div_mul_le_self ((x + 1000000000 / 2) % 2^64) 1000000000
    have h2 : (x + 1000000000 / 2) % 2^64 < 2^64 := Nat.mod_lt _ (by norm_num)
    omega
  · by_cases c8 : 10000000000 < x
    · rw [round_eval_8 x c8 (by omega)]
      have hm8 : (x + 100000000 / 2) % 2^64 = x + 100000000 / 2 := Nat.mod_eq_of_lt (by omega)
      rw [hm8]
      exact round_fix_8 _ (dvd_mul_left 100000000 _) (by omega) (by omega)
    · by_cases c7 : 1000000000 < x
      · rw [round_eval_7 x c7 (by omega)]
        have hm7 : (x + 10000000 / 2) % 2^64 = x + 10000000 / 2 := Nat.mod_eq_of_lt (by omega)
        rw [hm7]
        exact round_fix_7 _ (dvd_mul_left 10000000 _) (by omega) (by omega)
      · by_cases c6 : 100000000 < x
        · rw [round_eval_6 x c6 (by omega)]
          have hm6 : (x + 1000000 / 2) % 2^64 = x + 1000000 / 2 := Nat.mod_eq_of_lt (by omega)
          rw [hm6]
          exact round_fix_6 _ (dvd_mul_left 1000000 _) (by omega) (by omega)
        · by_cases c5 : 10000000 < x
          · rw [round_eval_5 x c5 (by omega)]
            have hm5 : (x + 100000 / 2) % 2^64 = x + 100000 / 2 := Nat.mod_eq_of_lt (by omega)
            rw [hm5]
            exact round_fix_5 _ (dvd_mul_left 100000 _) (by omega) (by omega)
          · by_cases c4 : 1000000 < x
            · rw [round_eval_4 x c4 (by omega)]
              have hm4 : (x + 10000 / 2) % 2^64 = x + 10000 / 2 := Nat.mod_eq_of_lt (by omega)
              rw [hm4]
              exact round_fix_4 _ (dvd_mul_left 10000 _) (by omega) (by omega)
            · by_cases c3 : 100000 < x
              · rw [round_eval_3 x c3 (by omega)]
                have hm3 : (x + 1000 / 2) % 2^64 = x + 1000 / 2 := Nat.mod_eq_of_lt (by omega)
                rw [hm3]
                exact round_fix_3 _ (dvd_mul_left 1000 _) (by omega) (by omega)
              · by_cases c2 : 10000 < x
                · rw [round_eval_2 x c2 (by omega)]
                  have hm2 : (x + 100 / 2) % 2^64 = x + 100 / 2 := Nat.mod_eq_of_lt (by omega)
                  rw [hm2]
                  exact round_fix_2 _ (dvd_mul_left 100 _) (by omega) (by omega)
                · by_cases c1 : 1000 < x
                  · rw [round_eval_1 x c1 (by omega)]
                    have hm1 : (x + 10 / 2) % 2^64 = x + 10 / 2 := Nat.mod_eq_of_lt (by omega)
                    rw [hm1]
                    exact round_fix_1 _ (dvd_mul_left 10 _) (by omega) (by omega)
                  · rw [round_eval_none x (by omega)]
                    exact round_eval_none x (by omega)

/-- Witness for C9 at a concrete value. -/
theorem lwma1_round_idem_witness :
    lwma1_round (lwma1_round 123456789) = lwma1_round 123456789 :=
  lwma1_round_idem 123456789 (by norm_num)

end Difficulty
